import Mathlib

/-!
Verification of the SQE text-linearization logic from the notebook
`Retrieving-text-with-the-SQE-API.ipynb`.

The data model follows the input document schema consumed by the notebook:
editions contain text fragments, fragments contain lines, lines contain
signs, each sign carries a list of sign interpretations, and every
interpretation carries attributes (identified by `attributeValueId`) and
next-interpretation references.

The two serialization passes of the notebook are embedded directly:
`readFragments`/`readLines`/`readSigns` (plain-text serialization) and
`simplifiedTextObject` (structured serialization).
-/

namespace SQE

/-- An attribute attached to a sign interpretation: its own id, the
attribute-value id (key into the attribute catalog), and an optional
numeric value. -/
structure Attr where
  id : Nat
  attributeValueId : Nat
  value : Option Int := none
deriving DecidableEq, Repr

/-- One concrete reading of a sign: a character (empty for purely
formatting interpretations), its attributes, and the identifiers of the
interpretations that may legally follow it. -/
structure SignInterpretation where
  id : Nat
  character : String := ""
  attributes : List Attr := []
  nextSignInterpretations : List Nat := []
deriving DecidableEq, Repr

/-- A sign: a position in a line carrying one or more interpretations. -/
structure Sign where
  signInterpretations : List SignInterpretation
deriving DecidableEq, Repr

/-- A line of a text fragment with its display name and its signs in the
default reading order. -/
structure Line where
  id : Nat
  lineName : String
  signs : List Sign
deriving DecidableEq, Repr

/-- A text fragment with its display name and its lines in the editor's
suggested order. -/
structure TextFragment where
  id : Nat
  textFragmentName : String
  lines : List Line
deriving DecidableEq, Repr

/-- The text object returned by the API (only the part the serializers
consume: the ordered list of text fragments). -/
structure Text where
  textFragments : List TextFragment
deriving DecidableEq, Repr

/-! ## The plain-text serialization pass (notebook cell 22) -/

/-- Embedding of the notebook's `readSigns(line, formattedString)`:
for every sign of the line and every interpretation of the sign, collect
the attribute-value ids; if id 20 (reconstruction) is absent append the
character when id 1 (letter) is present, else a single space when id 2
(space) is present, else nothing. -/
def readSigns (line : Line) (formattedString : String) : String :=
  line.signs.foldl
    (fun fs signs =>
      signs.signInterpretations.foldl
        (fun fs signInterpretation =>
          let attributes :=
            signInterpretation.attributes.map (fun x => x.attributeValueId)
          if 20 ∉ attributes then
            if 1 ∈ attributes then fs ++ signInterpretation.character
            else if 2 ∈ attributes then fs ++ " "
            else fs
          else fs)
        fs)
    formattedString

/-- Embedding of the notebook's `readLines(textFragment, formattedString)`:
each line contributes a header `"line {lineName}:\n"`, its sign rendering,
and a terminating newline. -/
def readLines (textFragment : TextFragment) (formattedString : String) :
    String :=
  textFragment.lines.foldl
    (fun fs line =>
      readSigns line (fs ++ "line " ++ line.lineName ++ ":\n") ++ "\n")
    formattedString

/-- Embedding of the notebook's `readFragments(text)`: each text fragment
contributes a header `"\nText fragment {textFragmentName}:\n"` followed by
its lines. -/
def readFragments (text : Text) : String :=
  text.textFragments.foldl
    (fun fs textFragment =>
      readLines textFragment
        (fs ++ "\nText fragment " ++ textFragment.textFragmentName ++ ":\n"))
    ""

/-! ## The structured serialization pass (notebook cell 24) -/

/-- The list of characters accumulated for one line by the structured
serialization pass: same filtering as `readSigns`, but each surviving
interpretation appends its character (letter) or `" "` (space) to a list.
In the notebook this list lives under the key `lineName` of the
per-line dict; the dict has that single key, built here by `lineObject`. -/
def lineChars (line : Line) : List String :=
  line.signs.foldl
    (fun cs sign =>
      sign.signInterpretations.foldl
        (fun cs signInterpretation =>
          let attributes :=
            signInterpretation.attributes.map (fun x => x.attributeValueId)
          if 20 ∉ attributes then
            if 1 ∈ attributes then cs ++ [signInterpretation.character]
            else if 2 ∈ attributes then cs ++ [" "]
            else cs
          else cs)
        cs)
    []

/-- The per-line object of the structured pass: a single-key mapping from
the line's name to its filtered characters. -/
def lineObject (line : Line) : List (String × List String) :=
  [(line.lineName, lineChars line)]

/-- Insertion-ordered dictionary update, modelling Python dict assignment:
replace the value when the key is present, append otherwise. -/
def dictSet {α : Type} (d : List (String × α)) (k : String) (v : α) :
    List (String × α) :=
  if d.any (fun p => p.1 = k) then
    d.map (fun p => if p.1 = k then (k, v) else p)
  else d ++ [(k, v)]

/-- Embedding of the notebook's `simplifiedTextObject` cell: a mapping from
each fragment's name to the list of its per-line objects. -/
def simplifiedTextObject (text : Text) :
    List (String × List (List (String × List String))) :=
  text.textFragments.foldl
    (fun d textFragment =>
      dictSet d textFragment.textFragmentName
        (textFragment.lines.foldl (fun ls line => ls ++ [lineObject line]) []))
    []

/-! ## Decomposition helpers

The two passes are folds that only ever append; the lemmas below expose
them as concatenations of independent per-interpretation contributions. -/

/-- The plain-text contribution of one interpretation, read off the
branch structure of `readSigns`. -/
def interpContribution (signInterpretation : SignInterpretation) : String :=
  let attributes :=
    signInterpretation.attributes.map (fun x => x.attributeValueId)
  if 20 ∉ attributes then
    if 1 ∈ attributes then signInterpretation.character
    else if 2 ∈ attributes then " "
    else ""
  else ""

/-- The structured contribution of one interpretation, read off the
branch structure of the `simplifiedTextObject` pass. -/
def interpChars (signInterpretation : SignInterpretation) : List String :=
  let attributes :=
    signInterpretation.attributes.map (fun x => x.attributeValueId)
  if 20 ∉ attributes then
    if 1 ∈ attributes then [signInterpretation.character]
    else if 2 ∈ attributes then [" "]
    else []
  else []

/-- All interpretations of a line, every interpretation of every sign,
flattened in the order both passes visit them. -/
def lineSIs (line : Line) : List SignInterpretation :=
  line.signs.flatMap (fun sign => sign.signInterpretations)

/-- String concatenation of the images of a function over a list. -/
def concatMap {α : Type} (f : α → String) : List α → String
  | [] => ""
  | a :: l => f a ++ concatMap f l

theorem concatMap_append {α : Type} (f : α → String) (l₁ l₂ : List α) :
    concatMap f (l₁ ++ l₂) = concatMap f l₁ ++ concatMap f l₂ := by
  induction l₁ with
  | nil => simp [concatMap, String.empty_append]
  | cons a l ih => simp [concatMap, ih, String.append_assoc]

theorem concatMap_bind {α β : Type} (f : β → String) (g : α → List β)
    (l : List α) :
    concatMap f (l.flatMap g) = concatMap (fun a => concatMap f (g a)) l := by
  induction l with
  | nil => rfl
  | cons a l ih => simp [concatMap, List.flatMap_cons, concatMap_append, ih]

/-- A fold whose step appends a fixed contribution is the seed followed by
the concatenation of the contributions. -/
theorem foldl_step_eq {α : Type} (g : String → α → String) (h : α → String)
    (H : ∀ s a, g s a = s ++ h a) :
    ∀ (l : List α) (s : String), l.foldl g s = s ++ concatMap h l := by
  intro l
  induction l with
  | nil => intro s; simp [concatMap, String.append_empty]
  | cons a l ih =>
    intro s
    simp only [List.foldl_cons, ih, H, concatMap, String.append_assoc]

/-- List version of `foldl_step_eq` for the structured pass. -/
theorem foldl_bind_eq {α β : Type} (g : List β → α → List β) (h : α → List β)
    (H : ∀ s a, g s a = s ++ h a) :
    ∀ (l : List α) (s : List β), l.foldl g s = s ++ l.flatMap h := by
  intro l
  induction l with
  | nil => intro s; simp
  | cons a l ih =>
    intro s
    simp [List.foldl_cons, ih, H, List.flatMap_cons]

theorem interpStep_eq (fs : String) (si : SignInterpretation) :
    (let attributes := si.attributes.map (fun x => x.attributeValueId)
     if 20 ∉ attributes then
       if 1 ∈ attributes then fs ++ si.character
       else if 2 ∈ attributes then fs ++ " "
       else fs
     else fs) = fs ++ interpContribution si := by
  simp only [interpContribution]
  split_ifs <;> simp [String.append_empty]

theorem readSigns_eq (line : Line) (s : String) :
    readSigns line s = s ++ concatMap interpContribution (lineSIs line) := by
  unfold readSigns lineSIs
  rw [concatMap_bind]
  apply foldl_step_eq
  intro s sign
  exact foldl_step_eq _ interpContribution interpStep_eq
    sign.signInterpretations s

/-- The full text of one line in the plain-text output: header, body,
terminating newline. -/
def lineText (line : Line) : String :=
  "line " ++ line.lineName ++ ":\n" ++
    concatMap interpContribution (lineSIs line) ++ "\n"

theorem readLines_eq (textFragment : TextFragment) (s : String) :
    readLines textFragment s = s ++ concatMap lineText textFragment.lines := by
  unfold readLines
  apply foldl_step_eq
  intro s line
  rw [readSigns_eq]
  simp [lineText, String.append_assoc]

/-- The full text of one fragment in the plain-text output: header plus
the texts of its lines. -/
def fragmentText (textFragment : TextFragment) : String :=
  "\nText fragment " ++ textFragment.textFragmentName ++ ":\n" ++
    concatMap lineText textFragment.lines

theorem readFragments_eq (text : Text) :
    readFragments text = concatMap fragmentText text.textFragments := by
  unfold readFragments
  rw [foldl_step_eq _ fragmentText]
  · exact String.empty_append _
  · intro s textFragment
    rw [readLines_eq]
    simp [fragmentText, String.append_assoc]

theorem listStep_eq (cs : List String) (si : SignInterpretation) :
    (let attributes := si.attributes.map (fun x => x.attributeValueId)
     if 20 ∉ attributes then
       if 1 ∈ attributes then cs ++ [si.character]
       else if 2 ∈ attributes then cs ++ [" "]
       else cs
     else cs) = cs ++ interpChars si := by
  simp only [interpChars]
  split_ifs <;> simp

theorem lineChars_eq (line : Line) :
    lineChars line = (lineSIs line).flatMap interpChars := by
  unfold lineChars lineSIs
  rw [List.flatMap_assoc]
  rw [foldl_bind_eq _ (fun sign => sign.signInterpretations.flatMap interpChars)]
  · simp
  · intro s sign
    exact foldl_bind_eq _ interpChars listStep_eq sign.signInterpretations s

theorem join_append (l₁ l₂ : List String) :
    String.join (l₁ ++ l₂) = String.join l₁ ++ String.join l₂ := by
  apply String.ext
  simp [String.data_join]

theorem join_interpChars (si : SignInterpretation) :
    String.join (interpChars si) = interpContribution si := by
  simp only [interpChars, interpContribution]
  split_ifs <;> (apply String.ext; simp [String.data_join])

theorem join_flatMap_interpChars (l : List SignInterpretation) :
    String.join (l.flatMap interpChars) = concatMap interpContribution l := by
  induction l with
  | nil => rfl
  | cons si l ih =>
    rw [List.flatMap_cons, join_append, join_interpChars, ih]
    rfl

/-- The two serializers agree: joining the structured characters of a line
gives exactly the plain-text body of that line. -/
theorem join_lineChars (line : Line) :
    String.join (lineChars line) =
      concatMap interpContribution (lineSIs line) := by
  rw [lineChars_eq, join_flatMap_interpChars]

theorem concatMap_congr {α : Type} {f g : α → String} (h : ∀ a, f a = g a)
    (l : List α) : concatMap f l = concatMap g l := by
  have hfg : f = g := funext h
  rw [hfg]

/-! ## Claims about the serialization passes -/

/-- A line whose single sign carries two interpretations, both letters. -/
def c1Line : Line :=
  { id := 1, lineName := "1",
    signs := [{ signInterpretations :=
      [{ id := 101, character := "a",
         attributes := [{ id := 1, attributeValueId := 1 }] },
       { id := 102, character := "b",
         attributes := [{ id := 2, attributeValueId := 1 }] }] }] }

/-- Claim C1 is false as stated: on a Line whose single Sign has two
interpretations, the plain-text serialization pass emits both of them
(`"ab"`), while taking exactly one interpretation per Sign — the
first-listed primary — would emit `"a"`. -/
theorem c1_counterexample :
    readSigns c1Line "" = "ab" ∧
    concatMap
      (fun sign =>
        match sign.signInterpretations.head? with
        | some si => interpContribution si
        | none => "") c1Line.signs = "a" ∧
    ("ab" : String) ≠ "a" := by
  refine ⟨rfl, rfl, by decide⟩

/-- Claim C1 (amended): the plain-text serialization pass visits the Signs
in the Line's given order, but within each Sign it serializes every listed
interpretation in listed order, not only the first-listed primary one; it
yields one interpretation per Sign only when each Sign lists exactly one. -/
theorem readSigns_visits_all_interpretations (line : Line) (s : String) :
    readSigns line s =
      s ++ concatMap
        (fun sign => concatMap interpContribution sign.signInterpretations)
        line.signs := by
  rw [readSigns_eq]
  simp only [lineSIs, concatMap_bind]

/-- Claim C2: the plain-text serializer appends, per interpretation
surviving the id-20 filter, its character when it carries the LETTER
attribute (id 1), a single literal space when it carries the SPACE
attribute (id 2), and nothing otherwise (the content of
`interpContribution`); each Line is prefixed by `"line {name}:\n"` and
terminated by `"\n"`, and each Text Fragment is prefixed by
`"\nText fragment {name}:\n"`. -/
theorem readFragments_structure (text : Text) :
    readFragments text =
      concatMap
        (fun tf =>
          "\nText fragment " ++ tf.textFragmentName ++ ":\n" ++
            concatMap
              (fun line =>
                "line " ++ line.lineName ++ ":\n" ++
                  concatMap interpContribution
                    (line.signs.flatMap (fun sign => sign.signInterpretations))
                  ++ "\n")
              tf.lines)
        text.textFragments := by
  rw [readFragments_eq]
  rfl

/-- The Line of claim C4: `A:"כ"` (LETTER), `B:""` (SPACE),
`C:"ל"` (LETTER and IsReconstructed), in that default order. -/
def c4Line : Line :=
  { id := 4, lineName := "1",
    signs :=
      [{ signInterpretations :=
          [{ id := 41, character := "כ",
             attributes := [{ id := 1, attributeValueId := 1 }] }] },
       { signInterpretations :=
          [{ id := 42, character := "",
             attributes := [{ id := 2, attributeValueId := 2 }] }] },
       { signInterpretations :=
          [{ id := 43, character := "ל",
             attributes := [{ id := 3, attributeValueId := 1 },
                            { id := 4, attributeValueId := 20 }] }] }] }

/-- Claim C4: on the Line `[A:"כ" (LETTER), B:"" (SPACE),
C:"ל" (LETTER, IsReconstructed)]` the plain-text pass (which always
excludes reconstructed interpretations) produces the line body `"כ "`:
C is dropped and B contributes exactly one trailing space. -/
theorem c4_line_body :
    readSigns c4Line "" = "כ " ∧
    readLines { id := 40, textFragmentName := "f", lines := [c4Line] } "" =
      "line 1:\nכ \n" := by
  constructor <;> rfl

/-- Claim C5: the structured serializer and the plain-text serializer
apply identical filtering and classification — for every Line,
concatenating the characters/spaces collected by the structured pass
(`lineChars`) is exactly the character content the plain-text pass appends
for that Line, and the whole plain-text output is recovered from the
structured per-line contents plus the fragment and line markers. -/
theorem serializers_agree (text : Text) (line : Line) (s : String) :
    readSigns line s = s ++ String.join (lineChars line) ∧
    readFragments text =
      concatMap
        (fun tf =>
          "\nText fragment " ++ tf.textFragmentName ++ ":\n" ++
            concatMap
              (fun l =>
                "line " ++ l.lineName ++ ":\n" ++
                  String.join (lineChars l) ++ "\n")
              tf.lines)
        text.textFragments := by
  have hl : lineText = fun l =>
      "line " ++ l.lineName ++ ":\n" ++ String.join (lineChars l) ++ "\n" := by
    funext l
    show "line " ++ l.lineName ++ ":\n" ++
        concatMap interpContribution (lineSIs l) ++ "\n" = _
    rw [join_lineChars]
  constructor
  · rw [readSigns_eq, join_lineChars]
  · rw [readFragments_eq]
    have hf : fragmentText = fun tf =>
        "\nText fragment " ++ tf.textFragmentName ++ ":\n" ++
          concatMap
            (fun l =>
              "line " ++ l.lineName ++ ":\n" ++
                String.join (lineChars l) ++ "\n")
            tf.lines := by
      funext tf
      show "\nText fragment " ++ tf.textFragmentName ++ ":\n" ++
          concatMap lineText tf.lines = _
      rw [hl]
    rw [hf]

/-- Claim C9: serialization only ever appends to the string it is given,
so re-serializing on top of the serializer's own output passes that output
through unchanged — no line or fragment separator is ever doubled.
In particular feeding `readFragments text` back through `readLines` leaves
it intact and merely appends the fresh rendering. -/
theorem reserialization_appends (text : Text) (textFragment : TextFragment)
    (line : Line) (s : String) :
    readSigns line s = s ++ readSigns line "" ∧
    readLines textFragment s = s ++ readLines textFragment "" ∧
    readLines textFragment (readFragments text) =
      readFragments text ++ readLines textFragment "" := by
  have hs : ∀ (l : Line) (s : String), readSigns l s = s ++ readSigns l "" := by
    intro l s
    rw [readSigns_eq, readSigns_eq, String.empty_append]
  have hl : ∀ (tf : TextFragment) (s : String),
      readLines tf s = s ++ readLines tf "" := by
    intro tf s
    rw [readLines_eq, readLines_eq, String.empty_append]
  exact ⟨hs line s, hl textFragment s, hl textFragment (readFragments text)⟩

/-- Claim C6: for a Text whose single fragment contains exactly the two
Lines named `"Col. I"` and `"Col. II"`, the structured serializer maps the
fragment's name to exactly those two line keys, in order, each carrying
that Line's filtered characters. -/
theorem structuredTree_two_lines (text : Text) (tf : TextFragment)
    (l1 l2 : Line)
    (htf : text.textFragments = [tf])
    (hlines : tf.lines = [l1, l2])
    (h1 : l1.lineName = "Col. I")
    (h2 : l2.lineName = "Col. II") :
    simplifiedTextObject text =
      [(tf.textFragmentName,
        [[("Col. I", lineChars l1)], [("Col. II", lineChars l2)]])] := by
  simp [simplifiedTextObject, htf, hlines, dictSet, lineObject, h1, h2]

/-- A two-line fragment named as in claim C6. -/
def c6l1 : Line :=
  { id := 61, lineName := "Col. I",
    signs := [{ signInterpretations :=
      [{ id := 611, character := "a",
         attributes := [{ id := 1, attributeValueId := 1 }] }] }] }

def c6l2 : Line :=
  { id := 62, lineName := "Col. II",
    signs := [{ signInterpretations :=
      [{ id := 621, character := "",
         attributes := [{ id := 2, attributeValueId := 2 }] }] }] }

def c6Text : Text :=
  { textFragments := [{ id := 63, textFragmentName := "4Q51 frg",
                        lines := [c6l1, c6l2] }] }

theorem structuredTree_two_lines_witness :
    simplifiedTextObject c6Text =
      [((({ id := 63, textFragmentName := "4Q51 frg",
            lines := [c6l1, c6l2] } : TextFragment)).textFragmentName,
        [[("Col. I", lineChars c6l1)], [("Col. II", lineChars c6l2)]])] :=
  structuredTree_two_lines c6Text
    { id := 63, textFragmentName := "4Q51 frg", lines := [c6l1, c6l2] }
    c6l1 c6l2 rfl rfl rfl rfl

/-- Claim C10: an interpretation carrying both the LETTER attribute (id 1)
and the SPACE attribute (id 2) but not id 20 contributes its character —
never a space — in both serializers: the LETTER branch takes precedence
over the SPACE branch. -/
theorem letter_precedes_space (si : SignInterpretation) (s : String)
    (h1 : 1 ∈ si.attributes.map (fun x => x.attributeValueId))
    (_h2 : 2 ∈ si.attributes.map (fun x => x.attributeValueId))
    (h20 : 20 ∉ si.attributes.map (fun x => x.attributeValueId)) :
    interpContribution si = si.character ∧
    interpChars si = [si.character] ∧
    readSigns { id := 0, lineName := "", signs := [{ signInterpretations := [si] }] } s
      = s ++ si.character ∧
    lineChars { id := 0, lineName := "", signs := [{ signInterpretations := [si] }] }
      = [si.character] := by
  have hc : interpContribution si = si.character := by
    simp [interpContribution, h1, h20]
  have hcs : interpChars si = [si.character] := by
    simp [interpChars, h1, h20]
  refine ⟨hc, hcs, ?_, ?_⟩
  · rw [readSigns_eq]
    show s ++ concatMap interpContribution [si] = s ++ si.character
    simp [concatMap, hc, String.append_empty]
  · rw [lineChars_eq]
    simp [lineSIs, hcs]

/-- An interpretation marked both LETTER and SPACE with no id 20. -/
def c10si : SignInterpretation :=
  { id := 7, character := "x",
    attributes := [{ id := 1, attributeValueId := 1 },
                   { id := 2, attributeValueId := 2 }] }

theorem letter_precedes_space_witness :
    interpContribution c10si = c10si.character ∧
    interpChars c10si = [c10si.character] ∧
    readSigns { id := 0, lineName := "",
                signs := [{ signInterpretations := [c10si] }] } ""
      = "" ++ c10si.character ∧
    lineChars { id := 0, lineName := "",
                signs := [{ signInterpretations := [c10si] }] }
      = [c10si.character] :=
  letter_precedes_space c10si "" (by decide) (by decide) (by decide)

/-! ## Claim C3: the reconstruction filter -/

/-- The sign-interpretation survival test of both passes: keep an
interpretation iff attribute-value id 20 is absent. -/
def keepInterp (si : SignInterpretation) : Bool :=
  !((si.attributes.map (fun x => x.attributeValueId)).contains 20)

/-- Remove from a line every interpretation marked reconstructed. -/
def pruneReconstructed (line : Line) : Line :=
  { line with signs := line.signs.map (fun sign =>
      { sign with signInterpretations :=
          sign.signInterpretations.filter keepInterp }) }

theorem interpContribution_of_reconstructed (si : SignInterpretation)
    (h : 20 ∈ si.attributes.map (fun x => x.attributeValueId)) :
    interpContribution si = "" := by
  simp [interpContribution, h]

theorem interpChars_of_reconstructed (si : SignInterpretation)
    (h : 20 ∈ si.attributes.map (fun x => x.attributeValueId)) :
    interpChars si = [] := by
  simp [interpChars, h]

theorem concatMap_filter_keep (sis : List SignInterpretation) :
    concatMap interpContribution (sis.filter keepInterp) =
      concatMap interpContribution sis := by
  induction sis with
  | nil => rfl
  | cons si l ih =>
    by_cases h : keepInterp si = true
    · rw [List.filter_cons_of_pos h]
      simp [concatMap, ih]
    · rw [List.filter_cons_of_neg h]
      have h20 : 20 ∈ si.attributes.map (fun x => x.attributeValueId) := by
        simp [keepInterp] at h
        simpa using h
      rw [ih]
      show concatMap interpContribution l =
        interpContribution si ++ concatMap interpContribution l
      rw [interpContribution_of_reconstructed si h20, String.empty_append]

theorem flatMap_filter_keep (sis : List SignInterpretation) :
    (sis.filter keepInterp).flatMap interpChars =
      sis.flatMap interpChars := by
  induction sis with
  | nil => rfl
  | cons si l ih =>
    by_cases h : keepInterp si = true
    · rw [List.filter_cons_of_pos h]
      simp [ih]
    · rw [List.filter_cons_of_neg h]
      have h20 : 20 ∈ si.attributes.map (fun x => x.attributeValueId) := by
        simp [keepInterp] at h
        simpa using h
      rw [ih, List.flatMap_cons, interpChars_of_reconstructed si h20,
        List.nil_append]

theorem lineSIs_prune (line : Line) :
    lineSIs (pruneReconstructed line) =
      line.signs.flatMap (fun sign => sign.signInterpretations.filter keepInterp) := by
  simp [lineSIs, pruneReconstructed, List.flatMap_map]

/-- Claim C3: an interpretation carrying attribute-value id 20 is excluded
from both serializations by the (hard-wired) default filter, regardless of
any co-occurring sign-type attribute: its contributions are empty, and
removing all such interpretations changes neither serializer's output. -/
theorem reconstructed_always_excluded (si : SignInterpretation) (line : Line)
    (s : String)
    (h : 20 ∈ si.attributes.map (fun x => x.attributeValueId)) :
    interpContribution si = "" ∧
    interpChars si = [] ∧
    readSigns (pruneReconstructed line) s = readSigns line s ∧
    lineChars (pruneReconstructed line) = lineChars line := by
  refine ⟨interpContribution_of_reconstructed si h,
    interpChars_of_reconstructed si h, ?_, ?_⟩
  · rw [readSigns_eq, readSigns_eq, lineSIs_prune]
    simp only [lineSIs]
    rw [concatMap_bind, concatMap_bind]
    exact congrArg (s ++ ·)
      (concatMap_congr (fun sign => concatMap_filter_keep _) _)
  · rw [lineChars_eq, lineChars_eq, lineSIs_prune]
    simp only [lineSIs]
    rw [List.flatMap_assoc, List.flatMap_assoc]
    have hfg : (fun sign : Sign =>
        (sign.signInterpretations.filter keepInterp).flatMap interpChars) =
        (fun sign : Sign => sign.signInterpretations.flatMap interpChars) :=
      funext (fun sign => flatMap_filter_keep _)
    rw [hfg]

/-- A reconstructed letter interpretation and a line containing it. -/
def c3si : SignInterpretation :=
  { id := 31, character := "ל",
    attributes := [{ id := 1, attributeValueId := 1 },
                   { id := 2, attributeValueId := 20 }] }

def c3Line : Line :=
  { id := 30, lineName := "2",
    signs := [{ signInterpretations := [c3si] },
              { signInterpretations :=
                [{ id := 32, character := "מ",
                   attributes := [{ id := 3, attributeValueId := 1 }] }] }] }

theorem reconstructed_always_excluded_witness :
    interpContribution c3si = "" ∧
    interpChars c3si = [] ∧
    readSigns (pruneReconstructed c3Line) "" = readSigns c3Line "" ∧
    lineChars (pruneReconstructed c3Line) = lineChars c3Line :=
  reconstructed_always_excluded c3si c3Line "" (by decide)

/-! ## Claim C7: attribute catalog and forward compatibility -/

/-- The closed set of semantic categories of the attribute catalog, plus
`Unknown` for every identifier outside the catalog. -/
inductive AttributeClass where
  | LETTER | SPACE | POSSIBLE_VACAT | VACAT | DAMAGE | BLANK_LINE
  | PARAGRAPH_MARKER | LACUNA | BREAK
  | LINE_START | LINE_END | COLUMN_START | COLUMN_END
  | MANUSCRIPT_START | MANUSCRIPT_END
  | MIGHT_BE_WIDER
  | INCOMPLETE_BUT_CLEAR | INCOMPLETE_AND_NOT_CLEAR
  | IS_RECONSTRUCTED
  | CONJECTURE | SHOULD_BE_ADDED | SHOULD_BE_DELETED
  | OVERWRITTEN | HORIZONTAL_LINE | DIAGONAL_LEFT_LINE | DIAGONAL_RIGHT_LINE
  | DOT_BELOW | DOT_ABOVE | LINE_BELOW | LINE_ABOVE | BOXED | ERASED
  | ABOVE_LINE | BELOW_LINE | LEFT_MARGIN | RIGHT_MARGIN | MARGIN
  | UPPER_MARGIN | LOWER_MARGIN
  | Unknown (rawId : Nat)
deriving DecidableEq, Repr

/-- The attribute catalog exactly as tabulated in the notebook: note that
id 16 is absent from the table. -/
def attributeCatalog : List (Nat × AttributeClass) :=
  [(1, .LETTER), (2, .SPACE), (3, .POSSIBLE_VACAT), (4, .VACAT),
   (5, .DAMAGE), (6, .BLANK_LINE), (7, .PARAGRAPH_MARKER), (8, .LACUNA),
   (9, .BREAK),
   (10, .LINE_START), (11, .LINE_END), (12, .COLUMN_START),
   (13, .COLUMN_END), (14, .MANUSCRIPT_START), (15, .MANUSCRIPT_END),
   (17, .MIGHT_BE_WIDER),
   (18, .INCOMPLETE_BUT_CLEAR), (19, .INCOMPLETE_AND_NOT_CLEAR),
   (20, .IS_RECONSTRUCTED),
   (21, .CONJECTURE), (22, .SHOULD_BE_ADDED), (23, .SHOULD_BE_DELETED),
   (24, .OVERWRITTEN), (25, .HORIZONTAL_LINE), (26, .DIAGONAL_LEFT_LINE),
   (27, .DIAGONAL_RIGHT_LINE), (28, .DOT_BELOW), (29, .DOT_ABOVE),
   (30, .LINE_BELOW), (31, .LINE_ABOVE), (32, .BOXED), (33, .ERASED),
   (34, .ABOVE_LINE), (35, .BELOW_LINE), (36, .LEFT_MARGIN),
   (37, .RIGHT_MARGIN), (38, .MARGIN), (39, .UPPER_MARGIN),
   (40, .LOWER_MARGIN)]

/-- The attribute-value identifiers the catalog recognizes. -/
def recognizedIds : List Nat := attributeCatalog.map (fun p => p.1)

/-- Modelled from the spec: the Attribute Catalog operation
`classify(attributeValueId) -> AttributeClass` (§4.1), which is not
implemented in the notebook; an unrecognized identifier classifies as
`Unknown` rather than failing. -/
def classify (attributeValueId : Nat) : AttributeClass :=
  match attributeCatalog.lookup attributeValueId with
  | some c => c
  | none => .Unknown attributeValueId

theorem lookup_eq_none_of_not_mem {β : Type} :
    ∀ (l : List (Nat × β)) (a : Nat),
      a ∉ l.map (fun p => p.1) → l.lookup a = none := by
  intro l
  induction l with
  | nil => intro a _; rfl
  | cons p l ih =>
    intro a h
    obtain ⟨k, b⟩ := p
    simp only [List.map_cons, List.mem_cons] at h
    push_neg at h
    obtain ⟨h1, h2⟩ := h
    simp only [List.lookup]
    rw [show (a == k) = false from beq_eq_false_iff_ne.mpr h1]
    exact ih a h2

/-- Drop every attribute with the given attribute-value id from one
interpretation. -/
def stripAttr (badId : Nat) (si : SignInterpretation) : SignInterpretation :=
  { si with attributes :=
      si.attributes.filter (fun a => a.attributeValueId != badId) }

/-- Drop every attribute with the given attribute-value id everywhere in a
line. -/
def dropAttrId (badId : Nat) (line : Line) : Line :=
  { line with signs := line.signs.map (fun sign =>
      { sign with signInterpretations :=
          sign.signInterpretations.map (stripAttr badId) }) }

theorem mem_ids_filter (attrs : List Attr) (badId k : Nat) (hk : k ≠ badId) :
    (k ∈ (attrs.filter (fun a => a.attributeValueId != badId)).map
        (fun x => x.attributeValueId)) ↔
      k ∈ attrs.map (fun x => x.attributeValueId) := by
  simp only [List.mem_map, List.mem_filter]
  constructor
  · rintro ⟨a, ⟨ha, _⟩, rfl⟩
    exact ⟨a, ha, rfl⟩
  · rintro ⟨a, ha, rfl⟩
    refine ⟨a, ⟨ha, ?_⟩, rfl⟩
    simpa using hk

theorem interpContribution_strip (si : SignInterpretation) (badId : Nat)
    (h1 : (1 : Nat) ≠ badId) (h2 : (2 : Nat) ≠ badId)
    (h20 : (20 : Nat) ≠ badId) :
    interpContribution (stripAttr badId si) = interpContribution si := by
  have e1 := mem_ids_filter si.attributes badId 1 h1
  have e2 := mem_ids_filter si.attributes badId 2 h2
  have e20 := mem_ids_filter si.attributes badId 20 h20
  by_cases m20 : (20 : Nat) ∈ si.attributes.map (fun x => x.attributeValueId)
  · simp [interpContribution, stripAttr, m20, e20.mpr m20]
  · have n20 : (20 : Nat) ∉ (si.attributes.filter
        (fun a => a.attributeValueId != badId)).map
        (fun x => x.attributeValueId) := fun hmem => m20 (e20.mp hmem)
    by_cases m1 : (1 : Nat) ∈ si.attributes.map (fun x => x.attributeValueId)
    · simp [interpContribution, stripAttr, m20, n20, m1, e1.mpr m1]
    · have n1 : (1 : Nat) ∉ (si.attributes.filter
          (fun a => a.attributeValueId != badId)).map
          (fun x => x.attributeValueId) := fun hmem => m1 (e1.mp hmem)
      by_cases m2 : (2 : Nat) ∈ si.attributes.map (fun x => x.attributeValueId)
      · simp [interpContribution, stripAttr, m20, n20, m1, n1, m2, e2.mpr m2]
      · have n2 : (2 : Nat) ∉ (si.attributes.filter
            (fun a => a.attributeValueId != badId)).map
            (fun x => x.attributeValueId) := fun hmem => m2 (e2.mp hmem)
        simp [interpContribution, stripAttr, m20, n20, m1, n1, m2, n2]

theorem interpChars_strip (si : SignInterpretation) (badId : Nat)
    (h1 : (1 : Nat) ≠ badId) (h2 : (2 : Nat) ≠ badId)
    (h20 : (20 : Nat) ≠ badId) :
    interpChars (stripAttr badId si) = interpChars si := by
  have e1 := mem_ids_filter si.attributes badId 1 h1
  have e2 := mem_ids_filter si.attributes badId 2 h2
  have e20 := mem_ids_filter si.attributes badId 20 h20
  by_cases m20 : (20 : Nat) ∈ si.attributes.map (fun x => x.attributeValueId)
  · simp [interpChars, stripAttr, m20, e20.mpr m20]
  · have n20 : (20 : Nat) ∉ (si.attributes.filter
        (fun a => a.attributeValueId != badId)).map
        (fun x => x.attributeValueId) := fun hmem => m20 (e20.mp hmem)
    by_cases m1 : (1 : Nat) ∈ si.attributes.map (fun x => x.attributeValueId)
    · simp [interpChars, stripAttr, m20, n20, m1, e1.mpr m1]
    · have n1 : (1 : Nat) ∉ (si.attributes.filter
          (fun a => a.attributeValueId != badId)).map
          (fun x => x.attributeValueId) := fun hmem => m1 (e1.mp hmem)
      by_cases m2 : (2 : Nat) ∈ si.attributes.map (fun x => x.attributeValueId)
      · simp [interpChars, stripAttr, m20, n20, m1, n1, m2, e2.mpr m2]
      · have n2 : (2 : Nat) ∉ (si.attributes.filter
            (fun a => a.attributeValueId != badId)).map
            (fun x => x.attributeValueId) := fun hmem => m2 (e2.mp hmem)
        simp [interpChars, stripAttr, m20, n20, m1, n1, m2, n2]

theorem concatMap_map {α β : Type} (f : β → String) (g : α → β)
    (l : List α) :
    concatMap f (l.map g) = concatMap (fun a => f (g a)) l := by
  induction l with
  | nil => rfl
  | cons a l ih => simp [concatMap, ih]

theorem lineSIs_dropAttr (badId : Nat) (line : Line) :
    lineSIs (dropAttrId badId line) = (lineSIs line).map (stripAttr badId) := by
  simp [lineSIs, dropAttrId, List.flatMap_map, List.map_flatMap,
    Function.comp]

/-- Claim C7: an attribute-value identifier outside the catalog classifies
as `Unknown` rather than failing, and both serializers are insensitive to
its presence: dropping every occurrence of such an id changes neither the
plain-text nor the structured output. -/
theorem unknown_attribute_forward_compatible (badId : Nat) (line : Line)
    (s : String) (h : badId ∉ recognizedIds) :
    classify badId = AttributeClass.Unknown badId ∧
    readSigns (dropAttrId badId line) s = readSigns line s ∧
    lineChars (dropAttrId badId line) = lineChars line := by
  have h1 : (1 : Nat) ≠ badId := fun e =>
    h (e ▸ (by decide : (1 : Nat) ∈ recognizedIds))
  have h2 : (2 : Nat) ≠ badId := fun e =>
    h (e ▸ (by decide : (2 : Nat) ∈ recognizedIds))
  have h20 : (20 : Nat) ≠ badId := fun e =>
    h (e ▸ (by decide : (20 : Nat) ∈ recognizedIds))
  refine ⟨?_, ?_, ?_⟩
  · have hn : attributeCatalog.lookup badId = none :=
      lookup_eq_none_of_not_mem attributeCatalog badId h
    simp [classify, hn]
  · rw [readSigns_eq, readSigns_eq, lineSIs_dropAttr, concatMap_map]
    exact congrArg (s ++ ·)
      (concatMap_congr (fun si => interpContribution_strip si badId h1 h2 h20) _)
  · rw [lineChars_eq, lineChars_eq, lineSIs_dropAttr, List.flatMap_map]
    have hfg : (fun a => interpChars (stripAttr badId a)) = interpChars := by
      funext si
      exact interpChars_strip si badId h1 h2 h20
    rw [hfg]

/-- A line carrying the uncataloged attribute-value id 16 next to a
letter attribute. -/
def c7Line : Line :=
  { id := 70, lineName := "3",
    signs := [{ signInterpretations :=
      [{ id := 71, character := "y",
         attributes := [{ id := 9, attributeValueId := 16 },
                        { id := 10, attributeValueId := 1 }] }] }] }

theorem unknown_attribute_forward_compatible_witness :
    classify 16 = AttributeClass.Unknown 16 ∧
    readSigns (dropAttrId 16 c7Line) "" = readSigns c7Line "" ∧
    lineChars (dropAttrId 16 c7Line) = lineChars c7Line :=
  unknown_attribute_forward_compatible 16 c7Line "" (by decide)

/-! ## Claim C8: eager cycle detection in the graph model

The notebook contains no graph-construction code, so `build` and its
cycle check are modelled from the spec (§4.2, §7): `build` validates every
line — each next-interpretation reference resolves within the line and the
next-interpretation relation is acyclic — and fails with `MalformedGraph`
otherwise, constructing nothing. -/

/-- The next-interpretation ids listed by the interpretation with the
given id inside a line (empty when the id does not resolve). -/
def interpNext (line : Line) (interpId : Nat) : List Nat :=
  match (lineSIs line).find? (fun si => si.id == interpId) with
  | some si => si.nextSignInterpretations
  | none => []

/-- One step of the next-interpretation relation over a set of ids. -/
def stepIds (line : Line) (ids : List Nat) : List Nat :=
  ids.flatMap (interpNext line)

/-- Every id reachable from `ids` in at most `fuel` further steps. -/
def reachN (line : Line) : Nat → List Nat → List Nat
  | 0, ids => ids
  | fuel + 1, ids => ids ++ reachN line fuel (stepIds line ids)

/-- The next-interpretation edge relation of a line. -/
def edge (line : Line) (a b : Nat) : Bool :=
  (interpNext line a).contains b

/-- Eager cycle detection: some interpretation reaches its own id again by
following next-interpretation references; `(lineSIs line).length` steps
suffice, since a simple cycle never revisits an id. -/
def hasCycle (line : Line) : Bool :=
  (lineSIs line).any (fun si =>
    (reachN line (lineSIs line).length (interpNext line si.id)).contains si.id)

/-- Every next-interpretation reference of the line resolves to an
interpretation of the same line. -/
def refsResolve (line : Line) : Bool :=
  (lineSIs line).all (fun si =>
    si.nextSignInterpretations.all (fun nid =>
      (lineSIs line).any (fun t => t.id == nid)))

inductive BuildError where
  | MalformedGraph
deriving DecidableEq, Repr

def validLine (line : Line) : Bool := refsResolve line && !(hasCycle line)

/-- Modelled from the spec: §4.2 `build(document) -> Edition`, absent from
the notebook. It validates the invariants of §3 for every line of every
fragment and fails with `MalformedGraph` — constructing no Edition — when a
reference is unresolved or a cycle is detected, eagerly at build time. -/
def build (text : Text) : Except BuildError Text :=
  if text.textFragments.all (fun tf => tf.lines.all validLine) then
    Except.ok text
  else Except.error BuildError.MalformedGraph

theorem mem_reachN_self (line : Line) (fuel : Nat) (ids : List Nat) (x : Nat)
    (hx : x ∈ ids) : x ∈ reachN line fuel ids := by
  cases fuel with
  | zero => exact hx
  | succ n => exact List.mem_append_left _ hx

theorem stepIds_subset (line : Line) {ids idt : List Nat} (h : ids ⊆ idt) :
    stepIds line ids ⊆ stepIds line idt := by
  intro x hx
  simp only [stepIds, List.mem_flatMap] at hx ⊢
  obtain ⟨a, ha, hxa⟩ := hx
  exact ⟨a, h ha, hxa⟩

theorem reachN_subset (line : Line) :
    ∀ (fuel : Nat) {ids idt : List Nat}, ids ⊆ idt →
      reachN line fuel ids ⊆ reachN line fuel idt := by
  intro fuel
  induction fuel with
  | zero => intro ids idt h; exact h
  | succ n ih =>
    intro ids idt h x hx
    simp only [reachN, List.mem_append] at hx ⊢
    rcases hx with hx | hx
    · exact Or.inl (h hx)
    · exact Or.inr (ih (stepIds_subset line h) hx)

theorem mem_interpNext_of_edge {line : Line} {a b : Nat}
    (h : edge line a b = true) : b ∈ interpNext line a := by
  simpa [edge] using h

theorem edge_src_mem {line : Line} {a b : Nat} (h : edge line a b = true) :
    ∃ si ∈ lineSIs line, si.id = a := by
  unfold edge interpNext at h
  cases hf : (lineSIs line).find? (fun si => si.id == a) with
  | none => rw [hf] at h; simp at h
  | some si =>
    have hmem := List.mem_of_find?_eq_some hf
    have hp := List.find?_some hf
    simp only [beq_iff_eq] at hp
    exact ⟨si, hmem, hp⟩

/-- Following a chain of next-interpretation edges starting at `a` reaches
the chain's last element within `length - 1` extra steps from the direct
successors of `a`. -/
theorem chain_reach (line : Line) :
    ∀ (l : List Nat) (a b : Nat) (fuel : Nat),
      List.Chain (fun x y => edge line x y = true) a l →
      l.getLast? = some b → l.length - 1 ≤ fuel →
      b ∈ reachN line fuel (interpNext line a) := by
  intro l
  induction l with
  | nil => intro a b fuel _ hlast _; simp at hlast
  | cons c l' ih =>
    intro a b fuel hchain hlast hlen
    rw [List.chain_cons] at hchain
    obtain ⟨hab, hrest⟩ := hchain
    have hc : c ∈ interpNext line a := mem_interpNext_of_edge hab
    cases l' with
    | nil =>
      simp only [List.getLast?_singleton, Option.some.injEq] at hlast
      subst hlast
      exact mem_reachN_self line fuel _ _ hc
    | cons d lrest =>
      rw [List.getLast?_cons_cons] at hlast
      have hfuel : 1 ≤ fuel := by
        simp only [List.length_cons] at hlen
        omega
      obtain ⟨m, rfl⟩ : ∃ m, fuel = m + 1 := ⟨fuel - 1, by omega⟩
      have hb : b ∈ reachN line m (interpNext line c) := by
        refine ih c b m hrest hlast ?_
        simp only [List.length_cons] at hlen ⊢
        omega
      have hsub : interpNext line c ⊆ stepIds line (interpNext line a) := by
        intro x hx
        simp only [stepIds, List.mem_flatMap]
        exact ⟨c, hc, hx⟩
      exact List.mem_append_right _ (reachN_subset line m hsub hb)

/-- Every element of `a :: l` is the source of some edge of the chain
`a → l ++ [z]`. -/
theorem chain_sources {R : Nat → Nat → Prop} :
    ∀ (l : List Nat) (a z : Nat),
      List.Chain R a (l ++ [z]) → ∀ x ∈ a :: l, ∃ y, R x y := by
  intro l
  induction l with
  | nil =>
    intro a z hchain x hx
    rw [List.nil_append, List.chain_cons] at hchain
    rw [List.mem_singleton] at hx
    subst hx
    exact ⟨z, hchain.1⟩
  | cons c l' ih =>
    intro a z hchain x hx
    rw [List.cons_append, List.chain_cons] at hchain
    obtain ⟨hac, hrest⟩ := hchain
    rcases List.mem_cons.mp hx with rfl | hx'
    · exact ⟨c, hac⟩
    · exact ih c z hrest x hx'

/-- A simple cycle in the next-interpretation relation is found by the
eager detector. -/
theorem hasCycle_of_cycle (line : Line) (a : Nat) (l : List Nat)
    (hchain : List.Chain (fun x y => edge line x y = true) a (l ++ [a]))
    (hnodup : (a :: l).Nodup) :
    hasCycle line = true := by
  have hsrc : ∀ x ∈ a :: l, ∃ y, edge line x y = true :=
    chain_sources l a a hchain
  have hids : ∀ x ∈ a :: l, x ∈ (lineSIs line).map (fun si => si.id) := by
    intro x hx
    obtain ⟨y, hy⟩ := hsrc x hx
    obtain ⟨si, hmem, hid⟩ := edge_src_mem hy
    exact List.mem_map.mpr ⟨si, hmem, hid⟩
  have hlen : (a :: l).length ≤ (lineSIs line).length := by
    have h1 : (a :: l).length = (a :: l).toFinset.card :=
      (List.toFinset_card_of_nodup hnodup).symm
    have h2 : (a :: l).toFinset ⊆
        ((lineSIs line).map (fun si => si.id)).toFinset := by
      intro x hx
      rw [List.mem_toFinset] at hx ⊢
      exact hids x hx
    calc (a :: l).length
        = (a :: l).toFinset.card := h1
      _ ≤ ((lineSIs line).map (fun si => si.id)).toFinset.card :=
          Finset.card_le_card h2
      _ ≤ ((lineSIs line).map (fun si => si.id)).length :=
          List.toFinset_card_le _
      _ = (lineSIs line).length := List.length_map _ _
  have hreach : a ∈ reachN line (lineSIs line).length (interpNext line a) := by
    refine chain_reach line (l ++ [a]) a a _ hchain (List.getLast?_concat l) ?_
    have hlen2 : l.length + 1 ≤ (lineSIs line).length := by
      simpa using hlen
    simp only [List.length_append, List.length_cons, List.length_nil]
    omega
  obtain ⟨y, hy⟩ := hsrc a (List.mem_cons_self a l)
  obtain ⟨si, hmem, hid⟩ := edge_src_mem hy
  unfold hasCycle
  rw [List.any_eq_true]
  refine ⟨si, hmem, ?_⟩
  rw [hid]
  exact List.elem_iff.mpr hreach

/-- Claim C8: whenever any Line of the document carries a cycle in its
next-interpretation references — a chain of edges `a → … → a` through
pairwise distinct ids — `build` fails with `MalformedGraph` and constructs
no Edition, the cycle check being part of `build` itself. -/
theorem build_fails_on_cycle (text : Text) (tf : TextFragment) (line : Line)
    (htf : tf ∈ text.textFragments) (hline : line ∈ tf.lines)
    (a : Nat) (l : List Nat)
    (hchain : List.Chain (fun x y => edge line x y = true) a (l ++ [a]))
    (hnodup : (a :: l).Nodup) :
    build text = Except.error BuildError.MalformedGraph ∧
    ∀ t : Text, build text ≠ Except.ok t := by
  have hcyc : hasCycle line = true := hasCycle_of_cycle line a l hchain hnodup
  have hinvalid : validLine line = false := by
    simp [validLine, hcyc]
  have hall : text.textFragments.all (fun tf => tf.lines.all validLine)
      = false := by
    cases hb : text.textFragments.all (fun tf => tf.lines.all validLine) with
    | false => rfl
    | true =>
      exfalso
      rw [List.all_eq_true] at hb
      have h1 := hb tf htf
      rw [List.all_eq_true] at h1
      have h2 := h1 line hline
      rw [hinvalid] at h2
      exact Bool.false_ne_true h2
  refine ⟨?_, ?_⟩
  · simp [build, hall]
  · intro t
    simp [build, hall]

/-- A line whose two interpretations reference each other: a 2-cycle. -/
def c8Line : Line :=
  { id := 80, lineName := "4",
    signs :=
      [{ signInterpretations :=
          [{ id := 1, character := "a",
             attributes := [{ id := 1, attributeValueId := 1 }],
             nextSignInterpretations := [2] }] },
       { signInterpretations :=
          [{ id := 2, character := "b",
             attributes := [{ id := 2, attributeValueId := 1 }],
             nextSignInterpretations := [1] }] }] }

def c8Text : Text :=
  { textFragments := [{ id := 81, textFragmentName := "g",
                        lines := [c8Line] }] }

theorem build_fails_on_cycle_witness :
    build c8Text = Except.error BuildError.MalformedGraph ∧
    ∀ t : Text, build c8Text ≠ Except.ok t :=
  build_fails_on_cycle c8Text
    { id := 81, textFragmentName := "g", lines := [c8Line] } c8Line
    (by simp [c8Text]) (by simp)
    1 [2]
    (List.Chain.cons (by decide) (List.Chain.cons (by decide) List.Chain.nil))
    (by decide)

end SQE
